import Mathlib

/-!
Shallow embedding of the Proyecto2 ray tracer (Rust sources under
`src/Proyecto2/src/`): the cube slab intersector (`cube.rs`), the
intersection record (`ray_intersect.rs`), textures (`texture.rs`),
materials (`material.rs`) and the shading / recursive ray casting engine
(`main.rs`).  `f32` is modelled by the extended-rational type `F` below:
finite values are exact rationals (finite-precision rounding is idealised
away), and the IEEE special values `+inf`, `-inf` and `NaN` are modelled
explicitly because the slab method deliberately produces infinite
reciprocals for zero direction components.  The sign of zero is not
tracked (the source itself documents that signed zeros are not
distinguished).
-/

attribute [local semireducible] Rat.mul Rat.add Rat.sub Rat.inv

/-- Fuel-driven Newton iteration for the integer square root (used
instead of `Nat.sqrt`, whose well-founded definition does not reduce
definitionally). -/
def isqrtGo : ℕ → ℕ → ℕ → ℕ
  | 0, _, guess => guess
  | fuel + 1, n, guess =>
      let next := (guess + n / guess) / 2
      if next < guess then isqrtGo fuel n next else guess

/-- Integer square root (the floor of the real square root), by Newton
iteration with ample fuel. -/
def isqrt (n : ℕ) : ℕ := if n ≤ 1 then n else isqrtGo n n n

/-- Scalar model of `f32`: an exact rational, `+inf`, `-inf`, or `NaN`. -/
inductive F where
  | fin (q : ℚ)
  | pinf
  | ninf
  | nan
deriving DecidableEq

namespace F

/-- IEEE negation. -/
def neg : F → F
  | fin q => fin (-q)
  | pinf => ninf
  | ninf => pinf
  | nan => nan

/-- IEEE addition (finite addition idealised as exact). -/
def add : F → F → F
  | nan, _ => nan
  | _, nan => nan
  | fin a, fin b => fin (a + b)
  | pinf, ninf => nan
  | ninf, pinf => nan
  | pinf, _ => pinf
  | _, pinf => pinf
  | ninf, _ => ninf
  | _, ninf => ninf

/-- IEEE subtraction, `x - y = x + (-y)`. -/
def sub (x y : F) : F := add x (neg y)

/-- IEEE multiplication: `0 * inf = NaN`, signs propagate. -/
def mul : F → F → F
  | nan, _ => nan
  | _, nan => nan
  | fin a, fin b => fin (a * b)
  | fin a, pinf => if 0 < a then pinf else if a < 0 then ninf else nan
  | fin a, ninf => if 0 < a then ninf else if a < 0 then pinf else nan
  | pinf, fin b => if 0 < b then pinf else if b < 0 then ninf else nan
  | ninf, fin b => if 0 < b then ninf else if b < 0 then pinf else nan
  | pinf, pinf => pinf
  | pinf, ninf => ninf
  | ninf, pinf => ninf
  | ninf, ninf => pinf

/-- IEEE division (zero signs not tracked: `q/0` gets the sign of `q`,
`0/0 = NaN`, `inf/0 = inf`). -/
def div : F → F → F
  | nan, _ => nan
  | _, nan => nan
  | fin a, fin b =>
      if b = 0 then (if a = 0 then nan else if 0 < a then pinf else ninf)
      else fin (a / b)
  | fin _, pinf => fin 0
  | fin _, ninf => fin 0
  | pinf, fin b => if b < 0 then ninf else pinf
  | ninf, fin b => if b < 0 then pinf else ninf
  | pinf, _ => nan
  | ninf, _ => nan

/-- IEEE strict comparison `x < y`; any comparison with `NaN` is `false`. -/
def lt : F → F → Bool
  | nan, _ => false
  | _, nan => false
  | fin a, fin b => decide (a < b)
  | fin _, pinf => true
  | fin _, ninf => false
  | ninf, fin _ => true
  | ninf, pinf => true
  | ninf, ninf => false
  | pinf, _ => false

/-- IEEE comparison `x ≤ y`; `false` whenever either side is `NaN`. -/
def ble (x y : F) : Bool :=
  if x = nan ∨ y = nan then false else ! lt y x

/-- Rust `f32::min`: if one argument is `NaN` the other is returned. -/
def fmin (x y : F) : F :=
  if x = nan then y else if y = nan then x else if lt y x then y else x

/-- Rust `f32::max`: if one argument is `NaN` the other is returned. -/
def fmax (x y : F) : F :=
  if x = nan then y else if y = nan then x else if lt x y then y else x

/-- Rust `f32::clamp(lo, hi)` (only ever called with finite `lo ≤ hi`). -/
def fclamp (x lo hi : F) : F :=
  if x = nan then nan else if lt x lo then lo else if lt hi x then hi else x

/-- IEEE absolute value. -/
def fabs : F → F
  | fin q => fin |q|
  | pinf => pinf
  | ninf => pinf
  | nan => nan

/-- Square root, idealised: exact on perfect-square nonnegative rationals,
`+inf` on `+inf`, `NaN` on negatives; `NaN` also marks finite values whose
exact square root is irrational (the development only ever evaluates
square roots at perfect squares, and every general theorem treats the
result symbolically). -/
def fsqrt : F → F
  | nan => nan
  | ninf => nan
  | pinf => pinf
  | fin q =>
      if q < 0 then nan
      else
        let n := q.num.toNat
        let d := q.den
        if isqrt n * isqrt n = n ∧ isqrt d * isqrt d = d then
          fin ((isqrt n : ℚ) / (isqrt d : ℚ))
        else nan

/-- Iterated product `x * (x * (... * 1))`, the meaning of `powf` at a
nonnegative integer exponent (`powf (x, 0) = 1` for every `x`, including
`NaN`, as in IEEE). -/
def powNat : F → ℕ → F
  | _, 0 => fin 1
  | x, n + 1 => mul x (powNat x n)

/-- Rust `f32::powf`, modelled only at nonnegative integral exponents -
the only exponents the program applies (`2.0` in the shadow falloff and
the material specular exponents). -/
def powf (x e : F) : F :=
  match e with
  | fin q => if 0 ≤ q.num ∧ q.den = 1 then powNat x q.num.toNat else nan
  | _ => nan

/-- Truncation toward zero of a rational, as a rational. -/
def ratTrunc (q : ℚ) : ℚ := if q < 0 then (⌈q⌉ : ℚ) else (⌊q⌋ : ℚ)

/-- Rust `%` on floats: `x - (x/y) .trunc * y`, `NaN` on infinite `x` or
zero `y`; a finite value modulo an infinity is the value itself. -/
def frem : F → F → F
  | fin a, fin b => if b = 0 then nan else fin (a - b * ratTrunc (a / b))
  | fin a, pinf => fin a
  | fin a, ninf => fin a
  | _, _ => nan

/-- Rust `as usize` on a float: saturating cast, truncating toward zero,
`NaN` and negative values go to `0`. -/
def toUsize : F → ℕ
  | fin q => if q < 0 then 0 else min (⌊q⌋).toNat (2 ^ 64 - 1)
  | pinf => 2 ^ 64 - 1
  | ninf => 0
  | nan => 0

end F

/-- A 3-component vector (`nalgebra_glm::Vec3` as used by the sources). -/
structure Vec3 where
  x : F
  y : F
  z : F
deriving DecidableEq

namespace Vec3

/-- Componentwise vector addition. -/
def vadd (a b : Vec3) : Vec3 := ⟨F.add a.x b.x, F.add a.y b.y, F.add a.z b.z⟩

/-- Componentwise vector subtraction. -/
def vsub (a b : Vec3) : Vec3 := ⟨F.sub a.x b.x, F.sub a.y b.y, F.sub a.z b.z⟩

/-- Componentwise vector negation. -/
def vneg (a : Vec3) : Vec3 := ⟨F.neg a.x, F.neg a.y, F.neg a.z⟩

/-- Scalar times vector (used for both `s * v` and `v * s` in the Rust
sources, which agree componentwise). -/
def smul (s : F) (a : Vec3) : Vec3 := ⟨F.mul s a.x, F.mul s a.y, F.mul s a.z⟩

/-- Dot product. -/
def dot (a b : Vec3) : F :=
  F.add (F.add (F.mul a.x b.x) (F.mul a.y b.y)) (F.mul a.z b.z)

/-- Euclidean magnitude, `sqrt (v . v)`. -/
def magnitude (a : Vec3) : F := F.fsqrt (dot a a)

/-- The `nalgebra` normalization: the vector divided componentwise by its
magnitude. -/
def normalize (a : Vec3) : Vec3 :=
  let m := magnitude a
  ⟨F.div a.x m, F.div a.y m, F.div a.z m⟩

end Vec3

/-- Modelled from the spec: `color.rs` is not among the provided sources.
Per spec section 3, a `Color` is three channels supporting componentwise
addition and scalar multiplication, with clamping deferred to the packing
step (which the rendering core never performs), so accumulation is exact
componentwise arithmetic. -/
structure Color where
  r : F
  g : F
  b : F
deriving DecidableEq

namespace Color

/-- Modelled from the spec: `Color::new` builds a color from the three
channel values. -/
def new (r g b : ℚ) : Color := ⟨F.fin r, F.fin g, F.fin b⟩

/-- Modelled from the spec: `Color::black()` is the zero color. -/
def black : Color := new 0 0 0

/-- Modelled from the spec: componentwise color addition (the `+` and
`+=` used when accumulating light contributions). -/
def cadd (c d : Color) : Color := ⟨F.add c.r d.r, F.add c.g d.g, F.add c.b d.b⟩

/-- Modelled from the spec: color times scalar (the `Color * f32` used to
weight light contributions). -/
def cmul (c : Color) (s : F) : Color := ⟨F.mul c.r s, F.mul c.g s, F.mul c.b s⟩

end Color

/-- Modelled from the spec: `light.rs` is not among the provided sources.
Per spec section 3 a `Light` is a position, a color and a scalar
intensity. -/
structure Light where
  position : Vec3
  color : Color
  intensity : F
deriving DecidableEq

/-- Source `texture.rs`: an immutable 2D grid of colors. -/
structure Texture where
  data : List Color
  width : ℕ
  height : ℕ
deriving DecidableEq

namespace Texture

/-- Constructor `Texture::new`: construction fails (Rust `assert!`) unless
`data.len() == width * height`; the panic is modelled as `none`. -/
def new (data : List Color) (width height : ℕ) : Option Texture :=
  if data.length = width * height then some ⟨data, width, height⟩ else none

/-- Sampling `Texture::get_color_at`: clamp the normalized coordinates, scale to
texel indices, clamp the indices into range, and read the texel.  The
direct Rust index `self.data[y * self.width + x]` is modelled with a
default of black; under the construction invariant the index is always in
range (claim C9 proves this). -/
def get_color_at (t : Texture) (u v : F) : Color :=
  if t.data.isEmpty then Color.black
  else
    let u := F.fclamp u (F.fin 0) (F.fin 1)
    let v := F.fclamp v (F.fin 0) (F.fin 1)
    let x := F.toUsize (F.mul u (F.fin (t.width : ℚ)))
    let y := F.toUsize (F.mul v (F.fin (t.height : ℚ)))
    let x := min x (t.width - 1)
    let y := min y (t.height - 1)
    t.data.getD (y * t.width + x) Color.black

end Texture

/-- Source `material.rs`: immutable shading parameters.  The Rust `[f32; 4]`
albedo is modelled by four named fields `albedo0 .. albedo3` standing for
`albedo[0] .. albedo[3]`.  The Rust `Arc<Material>` sharing is modelled
by plain values (materials are immutable, so sharing is unobservable). -/
structure Material where
  diffuse : Color
  specular : F
  albedo0 : F
  albedo1 : F
  albedo2 : F
  albedo3 : F
  refractive_index : F
  texture : Option Texture
deriving DecidableEq

namespace Material

/-- Constructor `Material::black()` (also `Material::default()`). -/
def black : Material :=
  ⟨Color.new 0 0 0, F.fin 0, F.fin 0, F.fin 0, F.fin 0, F.fin 0, F.fin 0, none⟩

end Material

/-- Source `ray_intersect.rs`: the hit-test record carried from the intersector
to the shader. -/
structure Intersect where
  is_intersecting : Bool
  distance : F
  point : Vec3
  normal : Vec3
  material : Material
  uv : Option (F × F)
deriving DecidableEq

namespace Intersect

/-- Sentinel `Intersect::empty()`: the no-hit sentinel - not intersecting, with
distance `+inf`. -/
def empty : Intersect :=
  ⟨false, F.pinf, ⟨F.fin 0, F.fin 0, F.fin 0⟩, ⟨F.fin 0, F.fin 0, F.fin 0⟩,
    Material.black, none⟩

end Intersect

/-- Source `cube.rs`: an axis-aligned box with min/max corners and a material. -/
structure Cube where
  min : Vec3
  max : Vec3
  material : Material
deriving DecidableEq

namespace Cube

/-- Extent `Cube::size`: the componentwise extent `max - min`. -/
def size (c : Cube) : Vec3 := Vec3.vsub c.max c.min

/-- Normal derivation `Cube::get_normal`: face detection by absolute tolerance `1e-3`,
checked in the fixed order x-min, x-max, y-min, y-max, z-min, else
z-max. -/
def get_normal (c : Cube) (point : Vec3) : Vec3 :=
  if F.lt (F.fabs (F.sub point.x c.min.x)) (F.fin (1 / 1000)) then
    ⟨F.fin (-1), F.fin 0, F.fin 0⟩
  else if F.lt (F.fabs (F.sub point.x c.max.x)) (F.fin (1 / 1000)) then
    ⟨F.fin 1, F.fin 0, F.fin 0⟩
  else if F.lt (F.fabs (F.sub point.y c.min.y)) (F.fin (1 / 1000)) then
    ⟨F.fin 0, F.fin (-1), F.fin 0⟩
  else if F.lt (F.fabs (F.sub point.y c.max.y)) (F.fin (1 / 1000)) then
    ⟨F.fin 0, F.fin 1, F.fin 0⟩
  else if F.lt (F.fabs (F.sub point.z c.min.z)) (F.fin (1 / 1000)) then
    ⟨F.fin 0, F.fin 0, F.fin (-1)⟩
  else
    ⟨F.fin 0, F.fin 0, F.fin 1⟩

/-- UV derivation `Cube::calculate_uv`: local coordinates scaled by the box size, taken
modulo 1, with the axis pair selected by which normal component is
nonzero in magnitude; absolute values keep the pair nonnegative. -/
def calculate_uv (c : Cube) (intersect : Intersect) : F × F :=
  let local_point := Vec3.vsub intersect.point c.min
  let size := c.size
  let uv :=
    if F.lt (F.fin 0) (F.fabs intersect.normal.x) then
      (F.frem (F.div local_point.z size.z) (F.fin 1),
       F.frem (F.div local_point.y size.y) (F.fin 1))
    else if F.lt (F.fin 0) (F.fabs intersect.normal.y) then
      (F.frem (F.div local_point.x size.x) (F.fin 1),
       F.frem (F.div local_point.z size.z) (F.fin 1))
    else
      (F.frem (F.div local_point.x size.x) (F.fin 1),
       F.frem (F.div local_point.y size.y) (F.fin 1))
  (F.fabs uv.1, F.fabs uv.2)

/-- The reciprocal of one ray-direction component (`cube.rs` lines
43-45): `1.0 / d` when the component is nonzero, `+inf` otherwise. -/
def invDir (d : F) : F :=
  if d ≠ F.fin 0 then F.div (F.fin 1) d else F.pinf

/-- One slab axis of `Cube::ray_intersect`: the two plane-crossing
parameters, swapped into (near, far) order when needed (`cube.rs` lines
47-59, 73-78). -/
def slabInterval (mn mx o inv : F) : F × F :=
  let t0 := F.mul (F.sub mn o) inv
  let t1 := F.mul (F.sub mx o) inv
  if F.lt t1 t0 then (t1, t0) else (t0, t1)

/-- Intersector `Cube::ray_intersect` (`cube.rs` lines 41-108): the slab method.
Reciprocals of zero direction components are `+inf`; each axis interval
is ordered, the running `[tmin, tmax]` interval is tightened axis by
axis, an empty interval returns `Intersect::empty()`, and otherwise the
hit is at parameter `tmin` with a post-hoc face normal and UV pair.
Note the comparisons `a > b` of the Rust source are written `F.lt b a`. -/
def ray_intersect (c : Cube) (origin direction : Vec3) : Intersect :=
  let tx := slabInterval c.min.x c.max.x origin.x (invDir direction.x)
  let ty := slabInterval c.min.y c.max.y origin.y (invDir direction.y)
  if F.lt ty.2 tx.1 || F.lt tx.2 ty.1 then Intersect.empty
  else
    let tmin2 := if F.lt tx.1 ty.1 then ty.1 else tx.1
    let tmax2 := if F.lt ty.2 tx.2 then ty.2 else tx.2
    let tz := slabInterval c.min.z c.max.z origin.z (invDir direction.z)
    if F.lt tz.2 tmin2 || F.lt tmax2 tz.1 then Intersect.empty
    else
      let tmin3 := if F.lt tmin2 tz.1 then tz.1 else tmin2
      let point := Vec3.vadd origin (Vec3.smul tmin3 direction)
      let normal := c.get_normal point
      let uv :=
        some (c.calculate_uv ⟨true, tmin3, point, normal, c.material, none⟩)
      ⟨true, tmin3, point, normal, c.material, uv⟩

end Cube

/-- Constant `ORIGIN_BIAS = 1e-4` from `main.rs`. -/
def ORIGIN_BIAS : F := F.fin (1 / 10000)

/-- Constant `SKYBOX_COLOR = Color::new(68, 142, 228)` from `main.rs`. -/
def SKYBOX_COLOR : Color := Color.new 68 142 228

/-- Function `offset_origin` of `main.rs`: bias the secondary-ray origin off the
surface along the normal, away from the side the direction points
into. -/
def offset_origin (intersect : Intersect) (direction : Vec3) : Vec3 :=
  let offset := Vec3.smul ORIGIN_BIAS intersect.normal
  if F.lt (Vec3.dot direction intersect.normal) (F.fin 0) then
    Vec3.vsub intersect.point offset
  else
    Vec3.vadd intersect.point offset

/-- Function `reflect` of `main.rs`: `incident - 2 * (incident . normal) * normal`. -/
def reflect (incident normal : Vec3) : Vec3 :=
  Vec3.vsub incident
    (Vec3.smul (F.mul (F.fin 2) (Vec3.dot incident normal)) normal)

/-- The clamped-and-negated cosine `cosi` computed at the top of
`main.rs` `refract` (Rust method calls bind tighter than unary minus). -/
def refractCosi (incident normal : Vec3) : F :=
  F.neg (F.fmin (F.fmax (Vec3.dot incident normal) (F.fin (-1))) (F.fin 1))

/-- The effective cosine `n_cosi` of `main.rs` `refract`. -/
def refractNCosi (incident normal : Vec3) : F :=
  let cosi := refractCosi incident normal
  if F.lt cosi (F.fin 0) then F.neg cosi else cosi

/-- The effective index ratio `eta` of `main.rs` `refract`. -/
def refractEta (incident normal : Vec3) (eta_t : F) : F :=
  let cosi := refractCosi incident normal
  if F.lt cosi (F.fin 0) then F.div (F.fin 1) eta_t else eta_t

/-- The effective normal `n_normal` of `main.rs` `refract` (flipped when
the ray enters the surface). -/
def refractNNormal (incident normal : Vec3) : Vec3 :=
  let cosi := refractCosi incident normal
  if F.lt cosi (F.fin 0) then Vec3.vneg normal else normal

/-- The refraction discriminant `k = 1 - eta^2 * (1 - n_cosi^2)` of
`main.rs` `refract`. -/
def refractK (incident normal : Vec3) (eta_t : F) : F :=
  let eta := refractEta incident normal eta_t
  let n_cosi := refractNCosi incident normal
  F.sub (F.fin 1)
    (F.mul (F.mul eta eta) (F.sub (F.fin 1) (F.mul n_cosi n_cosi)))

/-- Function `refract` of `main.rs` (lines 60-81): Snell refraction in vector form,
falling back to mirror reflection about the effective normal on a
negative discriminant (total internal reflection). -/
def refract (incident normal : Vec3) (eta_t : F) : Vec3 :=
  let eta := refractEta incident normal eta_t
  let n_cosi := refractNCosi incident normal
  let n_normal := refractNNormal incident normal
  let k := refractK incident normal eta_t
  if F.lt k (F.fin 0) then reflect incident n_normal
  else
    Vec3.vadd (Vec3.smul eta incident)
      (Vec3.smul (F.sub (F.mul eta n_cosi) (F.fsqrt k)) n_normal)

/-- The soft-shadow falloff applied to the occluder ratio `d / L`:
`1 - min(1, ratio)^2` (`main.rs` line 91, with `min` and `powf(2.0)` as
in the source). -/
def shadowFalloff (ratio : F) : F :=
  F.sub (F.fin 1) (F.powf (F.fmin ratio (F.fin 1)) (F.fin 2))

/-- The shadow-ray direction of `main.rs` `cast_shadow`: the normalized
vector from the surface point to the light. -/
def shadowLightDir (intersect : Intersect) (light : Light) : Vec3 :=
  Vec3.normalize (Vec3.vsub light.position intersect.point)

/-- The light distance of `main.rs` `cast_shadow`: the magnitude of the
vector from the surface point to the light. -/
def shadowLightDistance (intersect : Intersect) (light : Light) : F :=
  Vec3.magnitude (Vec3.vsub light.position intersect.point)

/-- The scan inside `main.rs` `cast_shadow`: the first object whose
shadow-ray hit is intersecting at a distance strictly below the light
distance returns the falloff of its ratio immediately; if no object
qualifies the result is `0.0`. -/
def castShadowLoop (origin dir : Vec3) (light_distance : F) :
    List Cube → F
  | [] => F.fin 0
  | object :: rest =>
      let shadow_intersect := object.ray_intersect origin dir
      if shadow_intersect.is_intersecting &&
          F.lt shadow_intersect.distance light_distance then
        shadowFalloff (F.div shadow_intersect.distance light_distance)
      else
        castShadowLoop origin dir light_distance rest

/-- Function `cast_shadow` of `main.rs` (lines 83-96). -/
def cast_shadow (intersect : Intersect) (light : Light)
    (objects : List Cube) : F :=
  let light_dir := shadowLightDir intersect light
  let light_distance := shadowLightDistance intersect light
  let shadow_ray_origin := offset_origin intersect light_dir
  castShadowLoop shadow_ray_origin light_dir light_distance objects

/-- One step of the nearest-hit scan of `main.rs` `cast_ray` (lines
106-112): the accumulator pairs the running closest intersect with the
running `zbuffer` distance, replaced only on a strictly smaller
distance. -/
def hitStep (origin direction : Vec3) (acc : Intersect × F)
    (object : Cube) : Intersect × F :=
  let i := object.ray_intersect origin direction
  if i.is_intersecting && F.lt i.distance acc.2 then (i, i.distance)
  else acc

/-- The nearest-hit scan of `main.rs` `cast_ray` (lines 103-112): a
linear fold of `hitStep` starting from `Intersect::empty()` and an
infinite `zbuffer`. -/
def closestHit (objects : List Cube) (origin direction : Vec3) :
    Intersect × F :=
  objects.foldl (hitStep origin direction) (Intersect.empty, F.pinf)

/-- The base color of `main.rs` `cast_ray` (lines 120-125): the texture
sample at the hit UV (defaulting to `(0, 0)`) when the material is
textured, else the flat diffuse color. -/
def baseColor (intersect : Intersect) : Color :=
  match intersect.material.texture with
  | some texture =>
      let uv := intersect.uv.getD (F.fin 0, F.fin 0)
      texture.get_color_at uv.1 uv.2
  | none => intersect.material.diffuse

/-- The body of `main.rs` `cast_ray` (lines 98-153), made structurally
recursive on the fuel `gas`.  `cast_ray` instantiates `gas = 4 - depth`,
and the recursion preserves `gas = 4 - depth`, so the `gas = 0` fallback
(reached only when `depth > 3`, where the source also returns the sky
color) is dead code for the instantiation made by `cast_ray`; every
branch mirrors the Rust source line by line. -/
def castRayAux (gas : ℕ) (ray_origin ray_direction : Vec3)
    (objects : List Cube) (lights : List Light) (depth : ℕ) : Color :=
  if depth > 3 then SKYBOX_COLOR
  else
    match gas with
    | 0 => SKYBOX_COLOR
    | gas + 1 =>
        let intersect := (closestHit objects ray_origin ray_direction).1
        if ! intersect.is_intersecting then SKYBOX_COLOR
        else
          let material := intersect.material
          let final_color := baseColor intersect
          let view_dir :=
            Vec3.normalize (Vec3.vsub ray_origin intersect.point)
          if F.lt (F.fin 1) material.refractive_index then
            let refracted_dir :=
              refract ray_direction intersect.normal
                material.refractive_index
            let refracted_origin := offset_origin intersect refracted_dir
            let refracted_color :=
              castRayAux gas refracted_origin refracted_dir objects lights
                (depth + 1)
            Color.cadd (Color.cmul final_color material.albedo0)
              (Color.cmul refracted_color material.albedo3)
          else
            lights.foldl
              (fun final_color light =>
                let light_dir :=
                  Vec3.normalize (Vec3.vsub light.position intersect.point)
                let reflect_dir :=
                  Vec3.normalize
                    (reflect (Vec3.vneg light_dir) intersect.normal)
                let shadow_intensity := cast_shadow intersect light objects
                let light_intensity :=
                  F.mul light.intensity
                    (F.sub (F.fin 1) shadow_intensity)
                let diffuse_intensity :=
                  F.fmin
                    (F.fmax (Vec3.dot intersect.normal light_dir) (F.fin 0))
                    (F.fin 1)
                let diffuse :=
                  Color.cmul
                    (Color.cmul (Color.cmul final_color material.albedo0)
                      diffuse_intensity)
                    light_intensity
                let specular_intensity :=
                  F.powf (F.fmax (Vec3.dot view_dir reflect_dir) (F.fin 0))
                    material.specular
                let specular :=
                  Color.cmul
                    (Color.cmul (Color.cmul light.color material.albedo1)
                      specular_intensity)
                    light_intensity
                Color.cadd final_color (Color.cadd diffuse specular))
              final_color

/-- Function `cast_ray` of `main.rs` (lines 98-153): the recursion is driven by the
depth cutoff `depth > 3` with recursive calls at `depth + 1`, so the
remaining budget `4 - depth` is a decreasing fuel. -/
def cast_ray (ray_origin ray_direction : Vec3) (objects : List Cube)
    (lights : List Light) (depth : ℕ) : Color :=
  castRayAux (4 - depth) ray_origin ray_direction objects lights depth

/-- Claim C5's literal per-light formula, following the spec's words: the
base color plus, for every light, a diffuse term
`base * albedo[0] * max(0, N.L) * lightIntensity * (1 - shadow)` and a
specular term
`lightColor * albedo[1] * max(0, V.R)^specular * lightIntensity * (1 - shadow)`
where every diffuse term multiplies the ORIGINAL base color and `R` is
the (unnormalized) reflection of `-L` about `N`.  Written for comparison
against `cast_ray`; the source instead multiplies the running
accumulator. -/
def specPhongClaimed (intersect : Intersect) (ray_origin : Vec3)
    (objects : List Cube) (lights : List Light) : Color :=
  let base := baseColor intersect
  let view_dir := Vec3.normalize (Vec3.vsub ray_origin intersect.point)
  lights.foldl
    (fun acc light =>
      let light_dir :=
        Vec3.normalize (Vec3.vsub light.position intersect.point)
      let reflect_dir := reflect (Vec3.vneg light_dir) intersect.normal
      let shadow := cast_shadow intersect light objects
      let atten := F.mul light.intensity (F.sub (F.fin 1) shadow)
      let diffuse :=
        Color.cmul
          (Color.cmul (Color.cmul base intersect.material.albedo0)
            (F.fmax (Vec3.dot intersect.normal light_dir) (F.fin 0)))
          atten
      let specular :=
        Color.cmul
          (Color.cmul (Color.cmul light.color intersect.material.albedo1)
            (F.powf (F.fmax (Vec3.dot view_dir reflect_dir) (F.fin 0))
              intersect.material.specular))
          atten
      Color.cadd acc (Color.cadd diffuse specular))
    base

/-- Claim C5's formula as amended: identical to `specPhongClaimed`
except that each light's diffuse term multiplies the running accumulated
color (the base color plus the contributions of the lights already
processed) rather than the original base, the diffuse cosine is clamped
to `[0, 1]`, and the reflection direction is normalized - exactly what
the source loop computes. -/
def specPhongAccum (intersect : Intersect) (ray_origin : Vec3)
    (objects : List Cube) (lights : List Light) : Color :=
  let material := intersect.material
  let view_dir := Vec3.normalize (Vec3.vsub ray_origin intersect.point)
  lights.foldl
    (fun final_color light =>
      let light_dir :=
        Vec3.normalize (Vec3.vsub light.position intersect.point)
      let reflect_dir :=
        Vec3.normalize (reflect (Vec3.vneg light_dir) intersect.normal)
      let shadow_intensity := cast_shadow intersect light objects
      let light_intensity :=
        F.mul light.intensity (F.sub (F.fin 1) shadow_intensity)
      let diffuse_intensity :=
        F.fmin (F.fmax (Vec3.dot intersect.normal light_dir) (F.fin 0))
          (F.fin 1)
      let diffuse :=
        Color.cmul
          (Color.cmul (Color.cmul final_color material.albedo0)
            diffuse_intensity)
          light_intensity
      let specular_intensity :=
        F.powf (F.fmax (Vec3.dot view_dir reflect_dir) (F.fin 0))
          material.specular
      let specular :=
        Color.cmul
          (Color.cmul (Color.cmul light.color material.albedo1)
            specular_intensity)
          light_intensity
      Color.cadd final_color (Color.cadd diffuse specular))
    (baseColor intersect)

/-- The shadow-ray hit distance object `obj` reports inside
`cast_shadow`. -/
def shadowHitDist (intersect : Intersect) (light : Light) (obj : Cube) : F :=
  (obj.ray_intersect (offset_origin intersect (shadowLightDir intersect light))
      (shadowLightDir intersect light)).distance

/-- An object qualifies as an occluder inside `cast_shadow`: its
shadow-ray hit is intersecting at a distance strictly below the light
distance. -/
def ShadowQual (intersect : Intersect) (light : Light) (c : Cube) : Prop :=
  ((c.ray_intersect
        (offset_origin intersect (shadowLightDir intersect light))
        (shadowLightDir intersect light)).is_intersecting &&
      F.lt (shadowHitDist intersect light c)
        (shadowLightDistance intersect light)) = true

/-- Decidability of `ShadowQual`, so concrete witnesses evaluate it. -/
instance (intersect : Intersect) (light : Light) (c : Cube) :
    Decidable (ShadowQual intersect light c) := by
  unfold ShadowQual
  infer_instance

/-- A hit record qualifies for selection by the nearest-hit scan: it is
intersecting and its distance compares strictly below `+inf` (this
excludes `+inf` and `NaN` distances, which the strict `<` test of the
scan can never accept). -/
def Qual (i : Intersect) : Prop :=
  i.is_intersecting = true ∧ F.lt i.distance F.pinf = true

/-- Decidability of `Qual`, so concrete witnesses evaluate it. -/
instance (i : Intersect) : Decidable (Qual i) := by
  unfold Qual
  infer_instance

/-- Invariant of the nearest-hit accumulator: either still the initial
pair (empty sentinel, infinite zbuffer), or a qualifying hit together
with its own distance as zbuffer. -/
def HitAccInv (acc : Intersect × F) : Prop :=
  acc = (Intersect.empty, F.pinf) ∨ (Qual acc.1 ∧ acc.2 = acc.1.distance)

/-- Convenience constructor for concrete rational vectors. -/
def vq (a b c : ℚ) : Vec3 := ⟨F.fin a, F.fin b, F.fin c⟩

/-- Concrete opaque fixture material (diffuse-only, flat white-ish). -/
def matPlain : Material :=
  ⟨Color.new 1 1 1, F.fin 15, F.fin 1, F.fin 0, F.fin 0, F.fin 0, F.fin 0,
    none⟩

/-- Concrete refractive fixture material (`refractive_index = 3/2`). -/
def matRefr : Material :=
  ⟨Color.new 1 1 1, F.fin 15, F.fin (9 / 10), F.fin 0, F.fin 0,
    F.fin (1 / 2), F.fin (3 / 2), none⟩

/-- Concrete unit fixture cube `[0,1]^3`. -/
def cubeA : Cube := ⟨vq 0 0 0, vq 1 1 1, matPlain⟩

/-- Concrete opaque fixture cube spanning `[-1,1]^2 x [4,6]`. -/
def cubeB : Cube := ⟨vq (-1) (-1) 4, vq 1 1 6, matPlain⟩

/-- Concrete refractive fixture cube spanning `[-1,1]^2 x [4,6]`. -/
def cubeR : Cube := ⟨vq (-1) (-1) 4, vq 1 1 6, matRefr⟩

/-- Concrete fixture intersection record: the hit of `cubeB` by the ray
from the origin along `+z` (front face, inward distance 4, normal
`-z`). -/
def hitB : Intersect :=
  ⟨true, F.fin 4, vq 0 0 4, vq 0 0 (-1), matPlain,
    some (F.fin (1 / 2), F.fin (1 / 2))⟩

/-- Concrete fixture point light between the camera and `cubeB`. -/
def lightB : Light := ⟨vq 0 0 2, Color.new 255 255 255, F.fin 1⟩

/-- Concrete 2x2 fixture texture with four distinct texels. -/
def tex2 : Texture :=
  ⟨[Color.new 1 0 0, Color.new 0 1 0, Color.new 0 0 1, Color.new 5 5 5],
    2, 2⟩

namespace F

/-- A true strict comparison has no `NaN` on either side. -/
lemma lt_nonnan {x y : F} (h : lt x y = true) : x ≠ nan ∧ y ≠ nan := by
  cases x <;> cases y <;> simp_all [lt]

/-- A true non-strict comparison has no `NaN` on either side. -/
lemma ble_nonnan {x y : F} (h : ble x y = true) : x ≠ nan ∧ y ≠ nan := by
  cases x <;> cases y <;> simp_all [ble]

/-- Everything except `NaN` is at most `+inf`. -/
lemma ble_pinf {x : F} (h : x ≠ nan) : ble x pinf = true := by
  cases x <;> simp_all [ble, lt]

/-- Non-strict comparison is reflexive away from `NaN`. -/
lemma ble_refl {x : F} (h : x ≠ nan) : ble x x = true := by
  cases x <;> simp_all [ble, lt]

/-- Strict comparison implies non-strict comparison. -/
lemma lt_imp_ble {x y : F} (h : lt x y = true) : ble x y = true := by
  cases x <;> cases y <;> simp_all [ble, lt] <;> linarith

/-- Away from `NaN` a failed strict comparison flips. -/
lemma ble_of_not_lt {x y : F} (hx : x ≠ nan) (hy : y ≠ nan)
    (h : lt x y = false) : ble y x = true := by
  cases x <;> cases y <;> simp_all [ble, lt] <;> linarith

/-- Strict comparison is transitive. -/
lemma lt_trans' {x y z : F} (h1 : lt x y = true) (h2 : lt y z = true) :
    lt x z = true := by
  cases x <;> cases y <;> cases z <;> simp_all [lt] <;> linarith

/-- Mixed transitivity, strict then non-strict. -/
lemma lt_of_lt_of_ble {x y z : F} (h1 : lt x y = true)
    (h2 : ble y z = true) : lt x z = true := by
  cases x <;> cases y <;> cases z <;> simp_all [ble, lt] <;> linarith

/-- Mixed transitivity, non-strict then strict. -/
lemma lt_of_ble_of_lt {x y z : F} (h1 : ble x y = true)
    (h2 : lt y z = true) : lt x z = true := by
  cases x <;> cases y <;> cases z <;> simp_all [ble, lt] <;> linarith

/-- Non-strict comparison is transitive. -/
lemma ble_trans' {x y z : F} (h1 : ble x y = true)
    (h2 : ble y z = true) : ble x z = true := by
  cases x <;> cases y <;> cases z <;> simp_all [ble, lt] <;> linarith

/-- Negation on the right of a product pulls out. -/
lemma mul_neg_right (a b : F) : mul a (neg b) = neg (mul a b) := by
  cases a <;> cases b <;> simp [mul, neg] <;> split_ifs <;>
    first | rfl | (exfalso; linarith) | simp [neg]

/-- A product of two negations cancels them. -/
lemma mul_neg_neg (a b : F) : mul (neg a) (neg b) = mul a b := by
  cases a <;> cases b <;> simp [mul, neg] <;> split_ifs <;>
    first | rfl | (exfalso; linarith) | simp [neg]

/-- A sum of two negations is the negated sum. -/
lemma add_neg_neg' (a b : F) : add (neg a) (neg b) = neg (add a b) := by
  cases a <;> cases b <;> simp [add, neg] <;> ring

end F

/-- Dotting against a negated vector negates the dot product. -/
lemma dot_vneg (a b : Vec3) :
    Vec3.dot a (Vec3.vneg b) = F.neg (Vec3.dot a b) := by
  cases a; cases b
  simp [Vec3.dot, Vec3.vneg, F.mul_neg_right, F.add_neg_neg']

/-- Scaling a negated vector by a negated scalar is scaling the vector by
the scalar. -/
lemma smul_neg_neg (s : F) (v : Vec3) :
    Vec3.smul (F.neg s) (Vec3.vneg v) = Vec3.smul s v := by
  cases v
  simp [Vec3.smul, Vec3.vneg, F.mul_neg_neg]

/-- Reflection about the negated normal equals reflection about the
normal: `reflect(i, -n) = i - 2 (i . -n) (-n) = i - 2 (i . n) n`. -/
lemma reflect_vneg (i n : Vec3) :
    reflect i (Vec3.vneg n) = reflect i n := by
  unfold reflect
  rw [dot_vneg, F.mul_neg_right, smul_neg_neg]

/-- Claim C7: whenever the refraction discriminant
`k = 1 - eta^2 * (1 - cos^2)` computed by `refract` is negative, the
returned direction is exactly the mirror reflection of the incident
direction about the normal, `incident - 2 (incident . normal) normal`;
this covers the entering case, where the source reflects about the
flipped normal `-normal`, because reflection about `-n` coincides with
reflection about `n`. -/
theorem c7_tir_is_reflection (incident normal : Vec3) (eta_t : F)
    (h : F.lt (refractK incident normal eta_t) (F.fin 0) = true) :
    refract incident normal eta_t = reflect incident normal := by
  unfold refract
  rw [if_pos h]
  unfold refractNNormal
  by_cases hc : F.lt (refractCosi incident normal) (F.fin 0) = true
  · simp only [hc, if_true]
    exact reflect_vneg incident normal
  · simp only [Bool.not_eq_true] at hc
    simp [hc]

/-- Witness for C7: a concrete total-internal-reflection input
(grazing incidence, `eta_t = 2`, discriminant `-3`). -/
theorem c7_tir_is_reflection_witness :
    F.lt (refractK (vq 1 0 0) (vq 0 0 1) (F.fin 2)) (F.fin 0) = true ∧
      refract (vq 1 0 0) (vq 0 0 1) (F.fin 2) =
        reflect (vq 1 0 0) (vq 0 0 1) :=
  ⟨by decide, c7_tir_is_reflection (vq 1 0 0) (vq 0 0 1) (F.fin 2) (by decide)⟩

/-- Claim C2: for every ray, scene and light list, `cast_ray` at any
depth strictly greater than 3 returns the sky color immediately,
independent of the scene content; together with the recursion stepping
`depth + 1` this bounds the recursion (the Lean embedding is total by
construction, with fuel `4 - depth`). -/
theorem c2_depth_cutoff (ray_origin ray_direction : Vec3)
    (objects : List Cube) (lights : List Light) (depth : ℕ)
    (h : depth > 3) :
    cast_ray ray_origin ray_direction objects lights depth =
      SKYBOX_COLOR := by
  unfold cast_ray castRayAux
  rw [if_pos h]

/-- Witness for C2: a concrete scene cast at depth 4 yields the sky
color. -/
theorem c2_depth_cutoff_witness :
    (4 > 3) ∧
      cast_ray (vq 0 0 0) (vq 0 0 1) [cubeB] [lightB] 4 = SKYBOX_COLOR :=
  ⟨by decide, c2_depth_cutoff (vq 0 0 0) (vq 0 0 1) [cubeB] [lightB] 4
    (by decide)⟩

/-- If every object reports no intersection, the nearest-hit fold keeps
its accumulator unchanged. -/
lemma foldl_hitStep_all_miss (origin direction : Vec3) :
    ∀ (l : List Cube) (acc : Intersect × F),
      (∀ c ∈ l,
          (c.ray_intersect origin direction).is_intersecting = false) →
      l.foldl (hitStep origin direction) acc = acc := by
  intro l
  induction l with
  | nil => intro acc _; rfl
  | cons c t ih =>
      intro acc h
      have hc := h c (List.mem_cons_self c t)
      have ht : ∀ x ∈ t,
          (x.ray_intersect origin direction).is_intersecting = false :=
        fun x hx => h x (List.mem_cons_of_mem c hx)
      simp only [List.foldl_cons]
      rw [show hitStep origin direction acc c = acc by
        simp [hitStep, hc]]
      exact ih acc ht

/-- Claim C8: at any depth at most 3, if no object's `ray_intersect`
reports an intersection for the ray, `cast_ray` returns exactly the
fixed sky color constant (the miss is a first-class outcome, not an
error). -/
theorem c8_miss_is_sky (ray_origin ray_direction : Vec3)
    (objects : List Cube) (lights : List Light) (depth : ℕ)
    (hd : depth ≤ 3)
    (hm : ∀ c ∈ objects,
      (c.ray_intersect ray_origin ray_direction).is_intersecting = false) :
    cast_ray ray_origin ray_direction objects lights depth =
      SKYBOX_COLOR := by
  have hz : closestHit objects ray_origin ray_direction =
      (Intersect.empty, F.pinf) :=
    foldl_hitStep_all_miss ray_origin ray_direction objects _ hm
  have h4 : 4 - depth = (3 - depth) + 1 := by omega
  have hnd : ¬ depth > 3 := by omega
  unfold cast_ray
  rw [h4]
  unfold castRayAux
  rw [if_neg hnd]
  simp [hz, Intersect.empty]

/-- Witness for C8: a concrete ray that misses the fixture cube yields
the sky color. -/
theorem c8_miss_is_sky_witness :
    (∀ c ∈ [cubeB],
      (c.ray_intersect (vq 5 0 0) (vq 0 0 1)).is_intersecting = false) ∧
      cast_ray (vq 5 0 0) (vq 0 0 1) [cubeB] [lightB] 0 = SKYBOX_COLOR :=
  ⟨by decide,
    c8_miss_is_sky (vq 5 0 0) (vq 0 0 1) [cubeB] [lightB] 0 (by decide)
      (by decide)⟩

/-- Claim C9: on a texture with `width >= 1`, `height >= 1` (both within
the `usize` range) and `data` of length `width * height`, sampling at
`u = 1, v = 1` returns the texel at index
`(height - 1) * width + (width - 1)` - the last row and column - and
that index is in range, so the clamping prevents an out-of-range
access. -/
theorem c9_texture_corner (t : Texture) (hw : 1 ≤ t.width)
    (hh : 1 ≤ t.height) (hwu : t.width ≤ 2 ^ 64) (hhu : t.height ≤ 2 ^ 64)
    (hl : t.data.length = t.width * t.height) :
    t.get_color_at (F.fin 1) (F.fin 1) =
        t.data.getD ((t.height - 1) * t.width + (t.width - 1))
          Color.black ∧
      (t.height - 1) * t.width + (t.width - 1) < t.data.length := by
  have hidx : (t.height - 1) * t.width + (t.width - 1) < t.data.length := by
    rw [hl]
    have h1 : (t.height - 1) * t.width + t.width = t.width * t.height := by
      have h2 : t.height - 1 + 1 = t.height := by omega
      calc (t.height - 1) * t.width + t.width
          = (t.height - 1 + 1) * t.width := by ring
        _ = t.width * t.height := by rw [h2]; ring
    omega
  have hne : t.data.isEmpty = false := by
    have : t.data.length ≠ 0 := by
      rw [hl]
      exact Nat.pos_iff_ne_zero.mp (Nat.mul_pos hw hh)
    simpa [List.isEmpty_iff_length_eq_zero] using this
  have e1 : F.fclamp (F.fin 1) (F.fin 0) (F.fin 1) = F.fin 1 := by decide
  have e2 : ∀ n : ℕ, F.mul (F.fin 1) (F.fin (n : ℚ)) = F.fin (n : ℚ) := by
    intro n; simp [F.mul]
  have e3 : ∀ n : ℕ, F.toUsize (F.fin (n : ℚ)) = min n (2 ^ 64 - 1) := by
    intro n
    rw [show F.toUsize (F.fin (n : ℚ)) =
        if (n : ℚ) < 0 then 0 else min (⌊(n : ℚ)⌋).toNat (2 ^ 64 - 1) from
      rfl]
    rw [if_neg (not_lt.mpr (Nat.cast_nonneg n)), Int.floor_natCast,
      Int.toNat_natCast]
  have ex : min (min t.width (2 ^ 64 - 1)) (t.width - 1) = t.width - 1 :=
    Nat.min_eq_right (Nat.le_min.mpr ⟨by omega, by omega⟩)
  have ey : min (min t.height (2 ^ 64 - 1)) (t.height - 1) =
      t.height - 1 :=
    Nat.min_eq_right (Nat.le_min.mpr ⟨by omega, by omega⟩)
  refine ⟨?_, hidx⟩
  unfold Texture.get_color_at
  rw [hne]
  simp only [Bool.false_eq_true, if_false, e1, e2, e3, ex, ey]

/-- Witness for C9: the 2x2 fixture texture sampled at `(1, 1)` returns
its last texel, at the in-range index 3. -/
theorem c9_texture_corner_witness :
    tex2.data.length = tex2.width * tex2.height ∧
      tex2.get_color_at (F.fin 1) (F.fin 1) =
        tex2.data.getD ((tex2.height - 1) * tex2.width + (tex2.width - 1))
          Color.black ∧
      (tex2.height - 1) * tex2.width + (tex2.width - 1) <
        tex2.data.length :=
  ⟨by decide,
    (c9_texture_corner tex2 (by decide) (by decide) (by decide) (by decide)
      (by decide)).1,
    (c9_texture_corner tex2 (by decide) (by decide) (by decide) (by decide)
      (by decide)).2⟩

/-- Claim C1 (amended): for every box and ray, whenever
`Cube::ray_intersect` reports no intersection its distance is the
`+infinity` sentinel; when it does report an intersection the distance
is the slab-entry parameter `tmin`, which may be negative (the box can
lie behind the ray origin), so `distance >= 0` does not hold in
general. -/
theorem c1_amended (c : Cube) (origin direction : Vec3)
    (hx : F.lt c.min.x c.max.x = true) (hy : F.lt c.min.y c.max.y = true)
    (hz : F.lt c.min.z c.max.z = true)
    (h : (c.ray_intersect origin direction).is_intersecting = false) :
    (c.ray_intersect origin direction).distance = F.pinf := by
  revert h
  simp only [Cube.ray_intersect]
  repeat' split
  all_goals intro h
  all_goals first | rfl | simp at h

/-- Witness for C1 (amended): a concrete missing ray gets the infinite
sentinel distance. -/
theorem c1_amended_witness :
    (cubeB.ray_intersect (vq 5 0 0) (vq 0 0 1)).is_intersecting = false ∧
      (cubeB.ray_intersect (vq 5 0 0) (vq 0 0 1)).distance = F.pinf :=
  ⟨by decide,
    c1_amended cubeB (vq 5 0 0) (vq 0 0 1) (by decide) (by decide)
      (by decide) (by decide)⟩

/-- Counterexample to claim C1 as stated: the unit box `[0,1]^3`
(componentwise `min < max`) intersected by the ray from `(2,2,2)` along
`(1,1,1)` - the box lies strictly behind the origin - reports
`is_intersecting = true` with distance `-2 < 0`, refuting
"if `is_intersecting` is true then `distance >= 0`". -/
theorem c1_counterexample :
    F.lt cubeA.min.x cubeA.max.x = true ∧
      F.lt cubeA.min.y cubeA.max.y = true ∧
      F.lt cubeA.min.z cubeA.max.z = true ∧
      (cubeA.ray_intersect (vq 2 2 2) (vq 1 1 1)).is_intersecting = true ∧
      (cubeA.ray_intersect (vq 2 2 2) (vq 1 1 1)).distance = F.fin (-2) ∧
      F.ble (F.fin 0)
        (cubeA.ray_intersect (vq 2 2 2) (vq 1 1 1)).distance = false := by
  decide

/-- Exponentiation `powf` at exponent `2.0` is squaring. -/
lemma powf_two (x : F) :
    F.powf x (F.fin 2) = F.mul x (F.mul x (F.fin 1)) := by
  rw [show F.powf x (F.fin 2) =
      if 0 ≤ (2 : ℚ).num ∧ (2 : ℚ).den = 1 then
        F.powNat x (2 : ℚ).num.toNat
      else F.nan from rfl]
  rw [if_pos (by decide), show ((2 : ℚ).num.toNat) = 2 from by decide]
  rfl

/-- The shadow falloff never exceeds `1`. -/
lemma shadowFalloff_le_one (x : F) :
    F.ble (shadowFalloff x) (F.fin 1) = true := by
  unfold shadowFalloff
  rw [powf_two]
  cases x with
  | nan => decide
  | pinf => decide
  | ninf => decide
  | fin q =>
      by_cases hq : (1 : ℚ) < q
      · rw [show F.fmin (F.fin q) (F.fin 1) = F.fin 1 from by
          simp [F.fmin, F.lt, hq]]
        decide
      · rw [show F.fmin (F.fin q) (F.fin 1) = F.fin q from by
          simp [F.fmin, F.lt, hq]]
        simp only [F.mul, F.sub, F.neg, F.add, F.ble, F.lt]
        simp only [reduceCtorEq, or_self, if_false, Bool.not_eq_true']
        rw [decide_eq_false_iff_not]
        nlinarith [mul_self_nonneg q]

/-- The square root model only produces `NaN`, `+inf`, or a nonnegative
finite value. -/
lemma fsqrt_range (x : F) :
    F.fsqrt x = F.nan ∨ F.fsqrt x = F.pinf ∨
      ∃ q : ℚ, F.fsqrt x = F.fin q ∧ 0 ≤ q := by
  cases x with
  | nan => exact Or.inl rfl
  | ninf => exact Or.inl rfl
  | pinf => exact Or.inr (Or.inl rfl)
  | fin q =>
      simp only [F.fsqrt]
      split_ifs
      · exact Or.inl rfl
      · exact Or.inr (Or.inr ⟨_, rfl, by positivity⟩)
      · exact Or.inl rfl

/-- The shadow scan never returns more than `1`. -/
lemma castShadowLoop_le_one (origin dir : Vec3) (L : F) :
    ∀ l : List Cube,
      F.ble (castShadowLoop origin dir L l) (F.fin 1) = true := by
  intro l
  induction l with
  | nil => rfl
  | cons c t ih =>
      simp only [castShadowLoop]
      by_cases hq : ((c.ray_intersect origin dir).is_intersecting &&
          F.lt (c.ray_intersect origin dir).distance L) = true
      · rw [if_pos hq]
        exact shadowFalloff_le_one _
      · rw [if_neg hq]
        exact ih

/-- When the light distance is `+inf`, `NaN`, or a nonnegative finite
value, and every occluder the scan can accept reports a nonnegative
distance, the scan result is nonnegative. -/
lemma castShadowLoop_nonneg (origin dir : Vec3) (L : F)
    (hL : L = F.nan ∨ L = F.pinf ∨ ∃ q : ℚ, L = F.fin q ∧ 0 ≤ q) :
    ∀ l : List Cube,
      (∀ c ∈ l,
        ((c.ray_intersect origin dir).is_intersecting &&
            F.lt (c.ray_intersect origin dir).distance L) = true →
        F.ble (F.fin 0) (c.ray_intersect origin dir).distance = true) →
      F.ble (F.fin 0) (castShadowLoop origin dir L l) = true := by
  intro l
  induction l with
  | nil => intro _; rfl
  | cons c t ih =>
      intro h
      simp only [castShadowLoop]
      by_cases hq : ((c.ray_intersect origin dir).is_intersecting &&
          F.lt (c.ray_intersect origin dir).distance L) = true
      · rw [if_pos hq]
        have hd0 := h c (List.mem_cons_self c t) hq
        have hdL : F.lt (c.ray_intersect origin dir).distance L = true :=
          (Bool.and_eq_true_iff.mp hq).2
        unfold shadowFalloff
        rw [powf_two]
        rcases hL with hL | hL | ⟨ql, hL, hql⟩
        · rw [hL] at hdL
          exact absurd hdL (by cases (c.ray_intersect origin dir).distance <;>
            simp [F.lt])
        · rcases hde : (c.ray_intersect origin dir).distance with qd | _ | _ | _ <;>
            rw [hde] at hd0 hdL <;> rw [hL] at hdL ⊢
          · rw [show F.div (F.fin qd) F.pinf = F.fin 0 from rfl]
            decide
          · simp [F.lt] at hdL
          · simp [F.ble, F.lt] at hd0
          · simp [F.ble, F.lt] at hd0
        · rcases hde : (c.ray_intersect origin dir).distance with qd | _ | _ | _ <;>
            rw [hde] at hd0 hdL <;> rw [hL] at hdL ⊢
          · simp only [F.lt, decide_eq_true_eq] at hdL
            have hd0' : (0 : ℚ) ≤ qd := by
              simp only [F.ble, F.lt] at hd0
              simp only [reduceCtorEq, or_self, if_false,
                Bool.not_eq_true'] at hd0
              rw [decide_eq_false_iff_not] at hd0
              linarith
            have hlpos : (0 : ℚ) < ql := lt_of_le_of_lt hd0' hdL
            rw [show F.div (F.fin qd) (F.fin ql) =
                F.fin (qd / ql) from by
              simp [F.div, ne_of_gt hlpos]]
            have hr1 : qd / ql < 1 := (div_lt_one hlpos).mpr hdL
            have hr0 : 0 ≤ qd / ql := by positivity
            rw [show F.fmin (F.fin (qd / ql)) (F.fin 1) =
                F.fin (qd / ql) from by
              simp [F.fmin, F.lt]
              intro hc
              linarith]
            simp only [F.mul, F.sub, F.neg, F.add, F.ble, F.lt]
            simp only [reduceCtorEq, or_self, if_false, Bool.not_eq_true']
            rw [decide_eq_false_iff_not]
            nlinarith
          · simp [F.lt] at hdL
          · simp [F.ble, F.lt] at hd0
          · simp [F.ble, F.lt] at hd0
      · rw [if_neg hq]
        exact ih fun x hx hxq => h x (List.mem_cons_of_mem c hx) hxq

/-- Claim C10 (amended): for every intersection record, light and object
list, `cast_shadow` returns at most `1` (so the attenuation
`1 - shadow` is at least `0`); and whenever every occluder the scan can
accept reports a nonnegative hit distance, the result also lies at or
above `0`.  Without that proviso the result can drop below `0` (see the
counterexample): an occluding box behind the shadow-ray origin at
distance `d < -L` still passes the `d < L` test and makes
`1 - min(1, d/L)^2` negative. -/
theorem c10_amended (intersect : Intersect) (light : Light)
    (objects : List Cube) :
    F.ble (cast_shadow intersect light objects) (F.fin 1) = true ∧
      ((∀ c ∈ objects, ShadowQual intersect light c →
          F.ble (F.fin 0) (shadowHitDist intersect light c) = true) →
        F.ble (F.fin 0) (cast_shadow intersect light objects) = true) := by
  constructor
  · exact castShadowLoop_le_one _ _ _ objects
  · intro h
    unfold cast_shadow
    refine castShadowLoop_nonneg _ _ _ ?_ objects ?_
    · unfold shadowLightDistance Vec3.magnitude
      rcases fsqrt_range (Vec3.dot
          (Vec3.vsub light.position intersect.point)
          (Vec3.vsub light.position intersect.point)) with hr | hr | hr
      · exact Or.inl hr
      · exact Or.inr (Or.inl hr)
      · exact Or.inr (Or.inr hr)
    · intro c hc hq
      exact h c hc hq

/-- Counterexample to claim C10 as stated: for the front-face hit of the
fixture cube and the fixture light at distance `2`, the cube itself
"occludes" the shadow ray at distance `-2 - 1e-4 < -L`, and
`cast_shadow` returns `1 - (1 + 1/20000)^2 < 0`, outside `[0, 1]`. -/
theorem c10_counterexample :
    F.lt (cast_shadow hitB lightB [cubeB]) (F.fin 0) = true ∧
      F.ble (F.fin 0) (cast_shadow hitB lightB [cubeB]) = false := by
  decide

/-- Witness for C10 (amended): with no objects the shadow value is `0`,
inside `[0, 1]`. -/
theorem c10_amended_witness :
    F.ble (cast_shadow hitB lightB []) (F.fin 1) = true ∧
      F.ble (F.fin 0) (cast_shadow hitB lightB []) = true :=
  ⟨(c10_amended hitB lightB []).1,
    (c10_amended hitB lightB []).2 (by simp)⟩

/-- A prefix of non-qualifying objects is skipped by the shadow scan. -/
lemma castShadowLoop_skip (origin dir : Vec3) (L : F) :
    ∀ (pre rest : List Cube),
      (∀ c ∈ pre,
        ¬ ((c.ray_intersect origin dir).is_intersecting &&
            F.lt (c.ray_intersect origin dir).distance L) = true) →
      castShadowLoop origin dir L (pre ++ rest) =
        castShadowLoop origin dir L rest := by
  intro pre
  induction pre with
  | nil => intro rest _; rfl
  | cons c t ih =>
      intro rest h
      simp only [List.cons_append, castShadowLoop]
      rw [if_neg (h c (List.mem_cons_self c t))]
      exact ih rest fun x hx => h x (List.mem_cons_of_mem c hx)

/-- Claim C3: `cast_shadow` scans the objects in order and, at the first
object whose shadow-ray hit is intersecting at distance strictly below
the light distance `L`, returns exactly `1 - min(1, d/L)^2` without
examining later objects (the result does not depend on `post`); with no
qualifying object it returns exactly `0`; and over ratios `d/L` in
`[0, 1]` the falloff is monotonically non-increasing. -/
theorem c3_shadow_formula :
    (∀ (intersect : Intersect) (light : Light) (pre post : List Cube)
        (obj : Cube),
        (∀ c ∈ pre, ¬ ShadowQual intersect light c) →
        ShadowQual intersect light obj →
        cast_shadow intersect light (pre ++ obj :: post) =
          shadowFalloff
            (F.div (shadowHitDist intersect light obj)
              (shadowLightDistance intersect light))) ∧
      (∀ (intersect : Intersect) (light : Light) (objects : List Cube),
        (∀ c ∈ objects, ¬ ShadowQual intersect light c) →
        cast_shadow intersect light objects = F.fin 0) ∧
      (∀ r1 r2 : ℚ, 0 ≤ r1 → r1 ≤ r2 → r2 ≤ 1 →
        F.ble (shadowFalloff (F.fin r2)) (shadowFalloff (F.fin r1)) =
          true) := by
  have efall : ∀ r : ℚ, r ≤ 1 →
      shadowFalloff (F.fin r) = F.fin (1 - r * r) := by
    intro r h1
    unfold shadowFalloff
    rw [powf_two, show F.fmin (F.fin r) (F.fin 1) = F.fin r from by
      simp [F.fmin, F.lt]
      intro hc
      linarith]
    simp [F.sub, F.add, F.neg, F.mul]
    ring
  refine ⟨?_, ?_, ?_⟩
  · intro intersect light pre post obj hpre hobj
    unfold cast_shadow
    rw [castShadowLoop_skip _ _ _ pre (obj :: post) hpre]
    simp only [castShadowLoop]
    unfold ShadowQual shadowHitDist at hobj
    rw [if_pos hobj]
    rfl
  · intro intersect light objects hall
    unfold cast_shadow
    rw [show objects = objects ++ [] from (List.append_nil objects).symm,
      castShadowLoop_skip _ _ _ objects [] hall]
    rfl
  · intro r1 r2 h0 h12 h21
    rw [efall r1 (le_trans h12 h21), efall r2 h21]
    simp only [F.ble, F.lt, reduceCtorEq, or_self, if_false,
      Bool.not_eq_true']
    rw [decide_eq_false_iff_not]
    nlinarith

/-- Witness for C3: the fixture scene hits the early-return formula at
its only cube, an empty scene yields `0`, and the falloff is
non-increasing between the concrete ratios `1/2` and `1`. -/
theorem c3_shadow_formula_witness :
    cast_shadow hitB lightB ([] ++ cubeB :: []) =
        shadowFalloff
          (F.div (shadowHitDist hitB lightB cubeB)
            (shadowLightDistance hitB lightB)) ∧
      cast_shadow hitB lightB [] = F.fin 0 ∧
      F.ble (shadowFalloff (F.fin 1)) (shadowFalloff (F.fin (1 / 2))) =
        true :=
  ⟨c3_shadow_formula.1 hitB lightB [] [] cubeB (by simp) (by decide),
    c3_shadow_formula.2.1 hitB lightB [] (by simp),
    c3_shadow_formula.2.2 (1 / 2) 1 (by norm_num) (by norm_num)
      (by norm_num)⟩

/-- One-step unfolding of `castRayAux` on the refractive branch. -/
lemma castRayAux_refract_step (gas : ℕ) (ray_origin ray_direction : Vec3)
    (objects : List Cube) (lights : List Light) (depth : ℕ)
    (hd : ¬ depth > 3)
    (hhit : (closestHit objects ray_origin ray_direction).1.is_intersecting
      = true)
    (hri : F.lt (F.fin 1)
      (closestHit objects ray_origin
        ray_direction).1.material.refractive_index = true) :
    castRayAux (gas + 1) ray_origin ray_direction objects lights depth =
      Color.cadd
        (Color.cmul
          (baseColor (closestHit objects ray_origin ray_direction).1)
          (closestHit objects ray_origin
            ray_direction).1.material.albedo0)
        (Color.cmul
          (castRayAux gas
            (offset_origin (closestHit objects ray_origin ray_direction).1
              (refract ray_direction
                (closestHit objects ray_origin ray_direction).1.normal
                (closestHit objects ray_origin
                  ray_direction).1.material.refractive_index))
            (refract ray_direction
              (closestHit objects ray_origin ray_direction).1.normal
              (closestHit objects ray_origin
                ray_direction).1.material.refractive_index)
            objects lights (depth + 1))
          (closestHit objects ray_origin
            ray_direction).1.material.albedo3) := by
  conv_lhs => rw [castRayAux]
  rw [if_neg hd]
  simp only [hhit, hri, Bool.not_true, Bool.false_eq_true, if_false,
    if_true]

/-- Claim C4: at depth at most 3, when the nearest hit's material has
refractive index above `1.0`, `cast_ray` returns exactly
`base * albedo[0] + recursive_color * albedo[3]`, where `base` is the
texture sample at the hit UV (or the flat diffuse color) and
`recursive_color` is `cast_ray` from the offset origin along the
refracted direction at `depth + 1`; no diffuse, specular, or shadow
term enters this branch. -/
theorem c4_refractive_blend (ray_origin ray_direction : Vec3)
    (objects : List Cube) (lights : List Light) (depth : ℕ)
    (hd : depth ≤ 3)
    (hhit : (closestHit objects ray_origin ray_direction).1.is_intersecting
      = true)
    (hri : F.lt (F.fin 1)
      (closestHit objects ray_origin
        ray_direction).1.material.refractive_index = true) :
    cast_ray ray_origin ray_direction objects lights depth =
      (let intersect := (closestHit objects ray_origin ray_direction).1
       let material := intersect.material
       let refracted_dir :=
         refract ray_direction intersect.normal material.refractive_index
       let refracted_origin := offset_origin intersect refracted_dir
       let refracted_color :=
         cast_ray refracted_origin refracted_dir objects lights (depth + 1)
       Color.cadd (Color.cmul (baseColor intersect) material.albedo0)
         (Color.cmul refracted_color material.albedo3)) := by
  have hd3 : ¬ depth > 3 := by omega
  have h4 : 4 - depth = (3 - depth) + 1 := by omega
  have h5 : 3 - depth = 4 - (depth + 1) := by omega
  unfold cast_ray
  rw [h4, castRayAux_refract_step (3 - depth) ray_origin ray_direction
    objects lights depth hd3 hhit hri, h5]

/-- Witness for C4: the refractive fixture cube hit head-on from the
origin satisfies the hypotheses, and the blend equation holds there. -/
theorem c4_refractive_blend_witness :
    (closestHit [cubeR] (vq 0 0 0) (vq 0 0 1)).1.is_intersecting = true ∧
      F.lt (F.fin 1)
        (closestHit [cubeR] (vq 0 0 0)
          (vq 0 0 1)).1.material.refractive_index = true ∧
      cast_ray (vq 0 0 0) (vq 0 0 1) [cubeR] [] 0 =
        (let intersect := (closestHit [cubeR] (vq 0 0 0) (vq 0 0 1)).1
         let material := intersect.material
         let refracted_dir :=
           refract (vq 0 0 1) intersect.normal material.refractive_index
         let refracted_origin := offset_origin intersect refracted_dir
         let refracted_color :=
           cast_ray refracted_origin refracted_dir [cubeR] [] 1
         Color.cadd (Color.cmul (baseColor intersect) material.albedo0)
           (Color.cmul refracted_color material.albedo3)) :=
  ⟨by decide, by decide,
    c4_refractive_blend (vq 0 0 0) (vq 0 0 1) [cubeR] [] 0 (by decide)
      (by decide) (by decide)⟩

/-- One-step unfolding of `castRayAux` on the opaque (Phong) branch. -/
lemma castRayAux_phong_step (gas : ℕ) (ray_origin ray_direction : Vec3)
    (objects : List Cube) (lights : List Light) (depth : ℕ)
    (hd : ¬ depth > 3)
    (hhit : (closestHit objects ray_origin ray_direction).1.is_intersecting
      = true)
    (hri : F.lt (F.fin 1)
      (closestHit objects ray_origin
        ray_direction).1.material.refractive_index = false) :
    castRayAux (gas + 1) ray_origin ray_direction objects lights depth =
      specPhongAccum (closestHit objects ray_origin ray_direction).1
        ray_origin objects lights := by
  conv_lhs => rw [castRayAux]
  rw [if_neg hd]
  simp only [hhit, hri, Bool.not_true, Bool.false_eq_true, if_false,
    if_true]
  rfl

/-- Claim C5 (amended): at depth at most 3, when the nearest hit's
material is not refractive (`refractive_index > 1.0` fails), `cast_ray`
returns the base color folded through the per-light loop in which each
light adds a diffuse term `accumulator * albedo[0] * clamp(N.L, 0, 1) *
lightIntensity * (1 - shadow)` - multiplying the RUNNING accumulated
color, not the original base - and a specular term `lightColor *
albedo[1] * max(0, V.R)^specular * lightIntensity * (1 - shadow)` with
`R` the normalized reflection of `-L` about `N`; the base color persists
as the starting accumulator.  With a single light this coincides with
the claimed base-color formula. -/
theorem c5_phong_accumulates (ray_origin ray_direction : Vec3)
    (objects : List Cube) (lights : List Light) (depth : ℕ)
    (hd : depth ≤ 3)
    (hhit : (closestHit objects ray_origin ray_direction).1.is_intersecting
      = true)
    (hri : F.lt (F.fin 1)
      (closestHit objects ray_origin
        ray_direction).1.material.refractive_index = false) :
    cast_ray ray_origin ray_direction objects lights depth =
      specPhongAccum (closestHit objects ray_origin ray_direction).1
        ray_origin objects lights := by
  have hd3 : ¬ depth > 3 := by omega
  have h4 : 4 - depth = (3 - depth) + 1 := by omega
  unfold cast_ray
  rw [h4]
  exact castRayAux_phong_step (3 - depth) ray_origin ray_direction objects
    lights depth hd3 hhit hri

/-- Counterexample to claim C5 as stated: with TWO copies of the fixture
light, the claim's per-light formula (every diffuse term multiplies the
original base color) disagrees with `cast_ray` - the source multiplies
the running accumulator, so the second light's diffuse term scales the
first light's contribution too.  The claim's preconditions hold (hit
found, `refractive_index <= 1.0`, depth 0). -/
theorem c5_counterexample :
    (closestHit [cubeB] (vq 0 0 0) (vq 0 0 1)).1.is_intersecting = true ∧
      F.lt (F.fin 1)
        (closestHit [cubeB] (vq 0 0 0)
          (vq 0 0 1)).1.material.refractive_index = false ∧
      cast_ray (vq 0 0 0) (vq 0 0 1) [cubeB] [lightB, lightB] 0 ≠
        specPhongClaimed (closestHit [cubeB] (vq 0 0 0) (vq 0 0 1)).1
          (vq 0 0 0) [cubeB] [lightB, lightB] := by
  refine ⟨by decide, by decide, ?_⟩
  decide

/-- Witness for C5 (amended): the fixture scene with its single light
satisfies the hypotheses and the accumulator formula. -/
theorem c5_phong_accumulates_witness :
    (closestHit [cubeB] (vq 0 0 0) (vq 0 0 1)).1.is_intersecting = true ∧
      F.lt (F.fin 1)
        (closestHit [cubeB] (vq 0 0 0)
          (vq 0 0 1)).1.material.refractive_index = false ∧
      cast_ray (vq 0 0 0) (vq 0 0 1) [cubeB] [lightB] 0 =
        specPhongAccum (closestHit [cubeB] (vq 0 0 0) (vq 0 0 1)).1
          (vq 0 0 0) [cubeB] [lightB] :=
  ⟨by decide, by decide,
    c5_phong_accumulates (vq 0 0 0) (vq 0 0 1) [cubeB] [lightB] 0
      (by decide) (by decide) (by decide)⟩

/-- Under the accumulator invariant the zbuffer is never `NaN`. -/
lemma hitAccInv_nonnan {acc : Intersect × F} (h : HitAccInv acc) :
    acc.2 ≠ F.nan := by
  rcases h with he | ⟨⟨_, hlt⟩, he⟩
  · rw [he]; simp
  · rw [he]; exact (F.lt_nonnan hlt).1

/-- One scan step preserves the accumulator invariant. -/
lemma hitStep_preserves (origin direction : Vec3) (acc : Intersect × F)
    (c : Cube) (h : HitAccInv acc) :
    HitAccInv (hitStep origin direction acc c) := by
  by_cases hb : ((c.ray_intersect origin direction).is_intersecting &&
      F.lt (c.ray_intersect origin direction).distance acc.2) = true
  · right
    unfold hitStep
    rw [if_pos hb]
    rcases Bool.and_eq_true_iff.mp hb with ⟨hI, hL⟩
    exact ⟨⟨hI, F.lt_of_lt_of_ble hL (F.ble_pinf (hitAccInv_nonnan h))⟩,
      rfl⟩
  · unfold hitStep
    rw [if_neg hb]
    exact h

/-- Master lemma for the nearest-hit scan: starting from an invariant
accumulator, the fold preserves the invariant, never increases the
zbuffer, ends at or below every qualifying hit distance of the list,
and either leaves the accumulator untouched (no element was accepted)
or lands exactly on the hit of some index `j`, strictly below the
initial zbuffer and strictly below every earlier qualifying hit
distance (the first-wins tie-break). -/
lemma foldl_hitStep_master (origin direction : Vec3) :
    ∀ (l : List Cube) (acc : Intersect × F), HitAccInv acc →
      HitAccInv (l.foldl (hitStep origin direction) acc) ∧
      F.ble (l.foldl (hitStep origin direction) acc).2 acc.2 = true ∧
      (∀ c ∈ l, Qual (c.ray_intersect origin direction) →
        F.ble (l.foldl (hitStep origin direction) acc).2
          (c.ray_intersect origin direction).distance = true) ∧
      ((l.foldl (hitStep origin direction) acc = acc ∧
          ∀ c ∈ l,
            ¬ ((c.ray_intersect origin direction).is_intersecting &&
                F.lt (c.ray_intersect origin direction).distance acc.2) =
              true) ∨
        ∃ j : ℕ, ∃ hj : j < l.length,
          (l.foldl (hitStep origin direction) acc).1 =
            (l.get ⟨j, hj⟩).ray_intersect origin direction ∧
          (l.foldl (hitStep origin direction) acc).2 =
            (l.foldl (hitStep origin direction) acc).1.distance ∧
          Qual ((l.foldl (hitStep origin direction) acc).1) ∧
          F.lt (l.foldl (hitStep origin direction) acc).2 acc.2 = true ∧
          (∀ k : ℕ, ∀ hk : k < l.length, k < j →
            Qual ((l.get ⟨k, hk⟩).ray_intersect origin direction) →
            F.lt (l.foldl (hitStep origin direction) acc).2
              ((l.get ⟨k, hk⟩).ray_intersect origin direction).distance =
              true)) := by
  intro l
  induction l with
  | nil =>
      intro acc h
      exact ⟨h, F.ble_refl (hitAccInv_nonnan h), by simp,
        Or.inl ⟨rfl, by simp⟩⟩
  | cons c t ih =>
      intro acc h
      have hinv' := hitStep_preserves origin direction acc c h
      obtain ⟨hinvr, hble', hmin', hcase'⟩ :=
        ih (hitStep origin direction acc c) hinv'
      simp only [List.foldl_cons]
      by_cases hb : ((c.ray_intersect origin direction).is_intersecting &&
          F.lt (c.ray_intersect origin direction).distance acc.2) = true
      · -- the head is accepted
        rcases Bool.and_eq_true_iff.mp hb with ⟨hI, hL⟩
        have hstep : hitStep origin direction acc c =
            (c.ray_intersect origin direction,
              (c.ray_intersect origin direction).distance) := by
          unfold hitStep
          rw [if_pos hb]
        have haccnn : acc.2 ≠ F.nan := hitAccInv_nonnan h
        have hqc : Qual (c.ray_intersect origin direction) :=
          ⟨hI, F.lt_of_lt_of_ble hL (F.ble_pinf haccnn)⟩
        have hble2 : F.ble (t.foldl (hitStep origin direction)
            (hitStep origin direction acc c)).2 acc.2 = true := by
          refine F.lt_imp_ble (F.lt_of_ble_of_lt ?_ hL)
          rw [hstep] at hble' ⊢
          exact hble'
        refine ⟨hinvr, hble2, ?_, ?_⟩
        · intro x hx hq
          rcases List.mem_cons.mp hx with rfl | hxt
          · rw [hstep] at hble' ⊢
            exact hble'
          · exact hmin' x hxt hq
        · right
          rcases hcase' with ⟨req, _⟩ | ⟨j', hj', e1, e2, hQ, hlt', hstr'⟩
          · refine ⟨0, by simp, ?_, ?_, ?_, ?_, ?_⟩
            · rw [req, hstep]; try rfl
            · rw [req, hstep]; try rfl
            · rw [req, hstep]; exact hqc
            · rw [req, hstep]; exact hL
            · intro k hk hk0 _
              omega
          · refine ⟨j' + 1, by simpa using hj', e1, e2, hQ, ?_, ?_⟩
            · rw [hstep] at hlt' ⊢
              exact F.lt_trans' hlt' hL
            · intro k hk hkj hq
              cases k with
              | zero =>
                  rw [hstep] at hlt' ⊢
                  exact hlt'
              | succ k'' =>
                  exact hstr' k'' (by simpa using hk) (by omega) hq
      · -- the head is rejected
        have hstep : hitStep origin direction acc c = acc := by
          unfold hitStep
          rw [if_neg hb]
        rw [hstep] at hinvr hble' hmin' hcase' ⊢
        refine ⟨hinvr, hble', ?_, ?_⟩
        · intro x hx hq
          rcases List.mem_cons.mp hx with rfl | hxt
          · have hLf : F.lt (x.ray_intersect origin direction).distance
                acc.2 = false := by
              cases hLv : F.lt (x.ray_intersect origin direction).distance
                  acc.2
              · rfl
              · exact absurd (Bool.and_eq_true_iff.mpr ⟨hq.1, hLv⟩) hb
            have hdnn : (x.ray_intersect origin direction).distance ≠
                F.nan := (F.lt_nonnan hq.2).1
            exact F.ble_trans' hble'
              (F.ble_of_not_lt hdnn (hitAccInv_nonnan h) hLf)
          · exact hmin' x hxt hq
        · rcases hcase' with ⟨req, hnone⟩ | ⟨j', hj', e1, e2, hQ, hlt', hstr'⟩
          · left
            refine ⟨req, ?_⟩
            intro x hx
            rcases List.mem_cons.mp hx with rfl | hxt
            · exact fun hcon => hb hcon
            · exact hnone x hxt
          · right
            refine ⟨j' + 1, by simpa using hj', e1, e2, hQ, hlt', ?_⟩
            intro k hk hkj hq
            cases k with
            | zero =>
                have hq' : Qual (c.ray_intersect origin direction) := hq
                have hLf : F.lt (c.ray_intersect origin direction).distance
                    acc.2 = false := by
                  cases hLv : F.lt (c.ray_intersect origin
                      direction).distance acc.2
                  · rfl
                  · exact absurd (Bool.and_eq_true_iff.mpr ⟨hq'.1, hLv⟩) hb
                have hdnn : (c.ray_intersect origin direction).distance ≠
                    F.nan := (F.lt_nonnan hq'.2).1
                exact F.lt_of_lt_of_ble hlt'
                  (F.ble_of_not_lt hdnn (hitAccInv_nonnan h) hLf)
            | succ k'' =>
                exact hstr' k'' (by simpa using hk) (by omega) hq

/-- Claim C6 (amended): whenever some object's hit qualifies
(intersecting with distance strictly below `+inf` - the only hits the
strict-less-than zbuffer test can accept), the nearest-hit scan used by
`cast_ray` selects the hit of some index `j` that is a qualifying hit,
no farther than every qualifying hit, and STRICTLY nearer than every
earlier qualifying hit - so among equal minimal distances the
first-encountered object wins.  Hits whose reported distance is `+inf`
or `NaN` (possible for degenerate rays with zero direction components)
are never selected, which is the amendment to the claim as stated. -/
theorem c6_nearest_hit (objects : List Cube) (origin direction : Vec3)
    (hex : ∃ c ∈ objects, Qual (c.ray_intersect origin direction)) :
    ∃ j : ℕ, ∃ hj : j < objects.length,
      (closestHit objects origin direction).1 =
        (objects.get ⟨j, hj⟩).ray_intersect origin direction ∧
      Qual ((objects.get ⟨j, hj⟩).ray_intersect origin direction) ∧
      (∀ k : ℕ, ∀ hk : k < objects.length,
        Qual ((objects.get ⟨k, hk⟩).ray_intersect origin direction) →
        F.ble (closestHit objects origin direction).1.distance
          ((objects.get ⟨k, hk⟩).ray_intersect origin direction).distance
          = true) ∧
      (∀ k : ℕ, ∀ hk : k < objects.length, k < j →
        Qual ((objects.get ⟨k, hk⟩).ray_intersect origin direction) →
        F.lt (closestHit objects origin direction).1.distance
          ((objects.get ⟨k, hk⟩).ray_intersect origin direction).distance
          = true) := by
  unfold closestHit
  obtain ⟨hinv, hble, hmin, hcase⟩ :=
    foldl_hitStep_master origin direction objects (Intersect.empty, F.pinf)
      (Or.inl rfl)
  rcases hcase with ⟨_, hnone⟩ | ⟨j, hj, e1, e2, hQ, _, hstr⟩
  · obtain ⟨c, hc, hq⟩ := hex
    exact absurd (Bool.and_eq_true_iff.mpr ⟨hq.1, hq.2⟩) (hnone c hc)
  · refine ⟨j, hj, e1, ?_, ?_, ?_⟩
    · rw [← e1]
      exact hQ
    · intro k hk hq
      have := hmin (objects.get ⟨k, hk⟩) (objects.get_mem k hk) hq
      rw [← e2]
      exact this
    · intro k hk hkj hq
      have := hstr k hk hkj hq
      rw [← e2]
      exact this

/-- Counterexample to claim C6 as stated: the unit box probed from
`(0, 1/2, -1/2)` along `(0, 1, 1)` (a ray grazing the `x = 0` face with
a zero direction component) reports `is_intersecting = true` but with a
`NaN` distance, which the strict-less-than scan never accepts - so
`cast_ray` returns the sky color even though an object reports an
intersection, and no intersection is shaded at all. -/
theorem c6_counterexample :
    (cubeA.ray_intersect (vq 0 (1 / 2) (-(1 / 2)))
        (vq 0 1 1)).is_intersecting = true ∧
      (closestHit [cubeA] (vq 0 (1 / 2) (-(1 / 2)))
        (vq 0 1 1)).1.is_intersecting = false ∧
      cast_ray (vq 0 (1 / 2) (-(1 / 2))) (vq 0 1 1) [cubeA] [] 0 =
        SKYBOX_COLOR := by
  decide

/-- Witness for C6 (amended): in the singleton fixture scene the scan
selects index 0, which is minimal and trivially first. -/
theorem c6_nearest_hit_witness :
    ∃ j : ℕ, ∃ hj : j < [cubeB].length,
      (closestHit [cubeB] (vq 0 0 0) (vq 0 0 1)).1 =
        ([cubeB].get ⟨j, hj⟩).ray_intersect (vq 0 0 0) (vq 0 0 1) ∧
      Qual (([cubeB].get ⟨j, hj⟩).ray_intersect (vq 0 0 0) (vq 0 0 1)) ∧
      (∀ k : ℕ, ∀ hk : k < [cubeB].length,
        Qual (([cubeB].get ⟨k, hk⟩).ray_intersect (vq 0 0 0) (vq 0 0 1)) →
        F.ble (closestHit [cubeB] (vq 0 0 0) (vq 0 0 1)).1.distance
          (([cubeB].get ⟨k, hk⟩).ray_intersect (vq 0 0 0)
            (vq 0 0 1)).distance = true) ∧
      (∀ k : ℕ, ∀ hk : k < [cubeB].length, k < j →
        Qual (([cubeB].get ⟨k, hk⟩).ray_intersect (vq 0 0 0) (vq 0 0 1)) →
        F.lt (closestHit [cubeB] (vq 0 0 0) (vq 0 0 1)).1.distance
          (([cubeB].get ⟨k, hk⟩).ray_intersect (vq 0 0 0)
            (vq 0 0 1)).distance = true) :=
  c6_nearest_hit [cubeB] (vq 0 0 0) (vq 0 0 1) (by decide)
